import Mathlib

/-!
Shallow embedding of the storage and ingestion core of the `alert`
repository (`src/storage/sqlite_manager.py`, `src/connectors/dex_api.py`,
`src/ui/app.py`), together with theorems settling the frozen claims about
its specification.

Modelling conventions:
* A SQL value is `Value`: `null` (SQL NULL), `int` (numeric values; the
  claims never compute with floats, so numbers are modelled by integers)
  or `str` (TEXT).
* A table row is an association list from column name to value; an absent
  column denotes SQL NULL, and `sqlValue` reads a column as the SQL value
  it holds.
* Python functions that raise become `Except String` computations; the
  process-wide SQLite database becomes an explicit `DB` record threaded
  through each store call; the module-global adapter registry of
  `dex_api.py` becomes an explicit association-list argument.
* SQLite semantics of `INSERT ... ON CONFLICT(cols) DO UPDATE / DO NOTHING`
  over a unique index on `cols` is modelled by `execUpsert`: a new row is
  appended (rowid order) unless an existing row agrees with the inserted
  row on every conflict column with non-NULL values, in which case the
  update columns of that row are overwritten (DO UPDATE) or the table is
  left unchanged (DO NOTHING).  `ORDER BY` and comparison follow SQLite's
  type ordering (NULL < numeric < text) via `valueLe`; a negative `LIMIT`
  places no bound on the number of returned rows, as in SQLite.
-/

/-- A SQL storage value: NULL, a numeric value, or a TEXT value. -/
inductive Value where
  | null : Value
  | int : Int → Value
  | str : String → Value
deriving DecidableEq

instance {ε α : Type _} [DecidableEq ε] [DecidableEq α] : DecidableEq (Except ε α) :=
  fun a b =>
  match a, b with
  | Except.error e, Except.error e' =>
    if h : e = e' then isTrue (by rw [h])
    else isFalse (by intro hh; cases hh; exact h rfl)
  | Except.error _, Except.ok _ => isFalse (by intro hh; cases hh)
  | Except.ok _, Except.error _ => isFalse (by intro hh; cases hh)
  | Except.ok x, Except.ok y =>
    if h : x = y then isTrue (by rw [h])
    else isFalse (by intro hh; cases hh; exact h rfl)

/-- A table row: an association list from column name to stored value.
An absent column denotes SQL NULL. -/
abbrev Row : Type := List (String × Value)

/-- Read a column of a row, `none` when the column is absent. -/
def Row.get : Row → String → Option Value
  | [], _ => none
  | p :: rest, c => if p.1 = c then some p.2 else Row.get rest c

/-- The SQL value a row holds in a column: absent columns read as NULL. -/
def sqlValue (r : Row) (c : String) : Value :=
  (Row.get r c).getD Value.null

/-- The column names of a row (the keys of a Python dict payload). -/
def Row.cols (r : Row) : List String :=
  List.map Prod.fst r

/-- Overwrite one column of a row (SQL `UPDATE ... SET c = v` on that row). -/
def Row.set : Row → String → Value → Row
  | [], c, v => [(c, v)]
  | p :: rest, c, v => if p.1 = c then (c, v) :: rest else p :: Row.set rest c v

/-- Bytewise (codepoint-lexicographic) comparison of TEXT values, the
BINARY collation SQLite compares and orders text with. -/
def charsLe : List Char → List Char → Bool
  | [], _ => true
  | _ :: _, [] => false
  | c :: cs, d :: ds =>
    if c.toNat < d.toNat then true
    else if d.toNat < c.toNat then false
    else charsLe cs ds

/-- SQLite total ordering on storage values: NULL sorts before numeric
values, which sort before TEXT values; text compares bytewise. -/
def valueLe : Value → Value → Bool
  | Value.null, _ => true
  | Value.int _, Value.null => false
  | Value.int a, Value.int b => a ≤ b
  | Value.int _, Value.str _ => true
  | Value.str _, Value.null => false
  | Value.str _, Value.int _ => false
  | Value.str a, Value.str b => charsLe a.data b.data

/-- SQL comparison `x >= y` is true (NULL operands make it not-true). -/
def sqlGe (x y : Value) : Bool :=
  decide (x ≠ Value.null) && decide (y ≠ Value.null) && valueLe y x

/-- SQL comparison `x = y` is true (NULL operands make it not-true). -/
def sqlEq (x y : Value) : Bool :=
  decide (x ≠ Value.null) && decide (x = y)

/-- Whether an inserted payload hits the unique index on `cols` of an
existing row: they agree on every conflict column with a non-NULL value
(SQLite treats NULLs in a unique index as distinct). -/
def conflictsWith (cols : List String) (payload r : Row) : Bool :=
  cols.all (fun c => decide (sqlValue payload c ≠ Value.null) &&
    decide (sqlValue payload c = sqlValue r c))

/-- Result of `_build_upsert_sql`: the parsed shape of the generated SQL
statement (conflict target, `SET` column list — empty meaning DO NOTHING —
and the bound payload). -/
structure UpsertSql where
  conflictColumns : List String
  updateColumns : List String
  payload : Row
deriving DecidableEq

/-- `_build_upsert_sql(table, payload, conflict_columns, skip_update)`:
raises when the payload has no columns; otherwise the `SET` list is the
payload columns minus the conflict columns and the skip set. -/
def buildUpsertSql (payload : Row) (conflictColumns : List String)
    (skipUpdate : List String) : Except String UpsertSql :=
  if Row.cols payload = [] then
    Except.error "payload must include at least one column"
  else
    Except.ok { conflictColumns := conflictColumns,
                updateColumns := Row.cols payload |>.filter
                  (fun c => decide (c ∉ conflictColumns ∧ c ∉ skipUpdate)),
                payload := payload }

/-- Apply the `DO UPDATE SET c = excluded.c` clauses to the conflicting
row: each update column is overwritten with the inserted payload's value. -/
def applyUpdate (updateColumns : List String) (payload r : Row) : Row :=
  updateColumns.foldl (fun acc c => Row.set acc c (sqlValue payload c)) r

/-- Execute the generated upsert statement against a table (a row list in
rowid order): append the payload as a fresh row unless some existing row
conflicts, in which case update that row (DO UPDATE) or do nothing. -/
def execUpsert (u : UpsertSql) : List Row → List Row
  | [] => [u.payload]
  | r :: rest =>
    if conflictsWith u.conflictColumns u.payload r then
      if u.updateColumns = [] then r :: rest
      else applyUpdate u.updateColumns u.payload r :: rest
    else r :: execUpsert u rest

/-- The `kv_state` table row: `key -> (value, updated_at)`. -/
structure KvRow where
  key : String
  value : String
  updated_at : Int
deriving DecidableEq

/-- The SQLite database: the three bar tables, events, watermark state,
rules and the token registry. -/
structure DB where
  bars_1m : List Row
  bars_5m : List Row
  bars_15m : List Row
  events : List Row
  kv_state : List KvRow
  price_alert_rules : List Row
  token_registry : List Row
deriving DecidableEq

/-- The empty database. -/
def emptyDB : DB :=
  { bars_1m := [], bars_5m := [], bars_15m := [], events := [],
    kv_state := [], price_alert_rules := [], token_registry := [] }

/-- `_ALLOWED_BAR_TABLES`. -/
def allowedBarTables : List String := ["bars_1m", "bars_5m", "bars_15m"]

/-- Read a bar table of the database by name (unknown names read empty;
every caller validates the name against `allowedBarTables` first). -/
def DB.getTable (db : DB) (t : String) : List Row :=
  if t = "bars_1m" then db.bars_1m
  else if t = "bars_5m" then db.bars_5m
  else if t = "bars_15m" then db.bars_15m
  else []

/-- Replace a bar table of the database by name. -/
def DB.setTable (db : DB) (t : String) (rows : List Row) : DB :=
  if t = "bars_1m" then { db with bars_1m := rows }
  else if t = "bars_5m" then { db with bars_5m := rows }
  else if t = "bars_15m" then { db with bars_15m := rows }
  else db

/-- The conflict target of `upsert_bar`: the composite bar identity. -/
def barIdColumns : List String :=
  ["source", "exchange", "chain", "symbol", "close_ts"]

/-- `upsert_bar(table, bar)`: validates the table name and non-emptiness
of the payload, then executes the generated upsert with conflict target
`(source, exchange, chain, symbol, close_ts)` and skip set `{bid}`. -/
def upsert_bar (table : String) (bar : Row) (db : DB) : Except String DB :=
  if table ∉ allowedBarTables then
    Except.error ("Unsupported bars table: " ++ table)
  else if bar = ([] : Row) then
    Except.error "bar payload is empty"
  else do
    let sql ← buildUpsertSql bar barIdColumns ["bid"]
    Except.ok (db.setTable table (execUpsert sql (db.getTable table)))

/-- The `WHERE symbol = ?` clause. -/
def filterSymbol (symbol : String) (l : List Row) : List Row :=
  l.filter (fun r => sqlEq (sqlValue r "symbol") (Value.str symbol))

/-- The optional `AND close_ts >= ?` clause. -/
def applySince : Option Int → List Row → List Row
  | none, l => l
  | some t, l => l.filter (fun r => sqlGe (sqlValue r "close_ts") (Value.int t))

/-- The `ORDER BY close_ts ASC` clause (SQLite value ordering). -/
def sortByCloseTs (l : List Row) : List Row :=
  l.insertionSort
    (fun a b => valueLe (sqlValue a "close_ts") (sqlValue b "close_ts") = true)

/-- The optional `LIMIT ?` clause: a non-negative limit caps the row
count; a negative one places no bound, as in SQLite. -/
def applyLimit : Option Int → List Row → List Row
  | none, l => l
  | some n, l => if n < 0 then l else l.take n.toNat

/-- `fetch_bars(table, symbol, since_ts, limit)`: validates the table
name; keeps the rows whose `symbol` column equals the given TEXT value,
optionally those with `close_ts >= since_ts`; orders by `close_ts`
ascending; optionally caps the row count. -/
def fetch_bars (table : String) (symbol : String) (since_ts : Option Int)
    (limit : Option Int) (db : DB) : Except String (List Row) :=
  if table ∉ allowedBarTables then
    Except.error ("Unsupported bars table: " ++ table)
  else
    Except.ok (applyLimit limit (sortByCloseTs
      (applySince since_ts (filterSymbol symbol (db.getTable table)))))

/-- `insert_event(event)`: requires an `id` column, then executes the
generated upsert with conflict target `(id)` and no skip set. -/
def insert_event (event : Row) (db : DB) : Except String DB :=
  if "id" ∉ Row.cols event then
    Except.error "event must include 'id'"
  else do
    let sql ← buildUpsertSql event ["id"] []
    Except.ok { db with events := execUpsert sql db.events }

/-- `ON CONFLICT(key) DO UPDATE` on the `kv_state` table: overwrite the
existing key's row in place, else append a fresh row. -/
def kvUpsert (k v : String) (ts : Int) : List KvRow → List KvRow
  | [] => [{ key := k, value := v, updated_at := ts }]
  | r :: rest =>
    if r.key = k then { key := k, value := v, updated_at := ts } :: rest
    else r :: kvUpsert k v ts rest

/-- `set_kv(key, value, updated_at)`: last-write-wins upsert on `key`. -/
def set_kv (key value : String) (updated_at : Int) (db : DB) : DB :=
  { db with kv_state := kvUpsert key value updated_at db.kv_state }

/-- First row of `kv_state` carrying a key. -/
def kvFind (k : String) : List KvRow → Option KvRow
  | [] => none
  | r :: rest => if r.key = k then some r else kvFind k rest

/-- `get_kv(key)`: point lookup of the watermark row. -/
def get_kv (key : String) (db : DB) : Option KvRow :=
  kvFind key db.kv_state

/-- `upsert_rule(rule)`: requires an `id` column, then executes the
generated upsert with conflict target `(id)` and no skip set. -/
def upsert_rule (rule : Row) (db : DB) : Except String DB :=
  if "id" ∉ Row.cols rule then
    Except.error "rule must include 'id'"
  else do
    let sql ← buildUpsertSql rule ["id"] []
    Except.ok { db with price_alert_rules := execUpsert sql db.price_alert_rules }

/-- `upsert_token(token)`: requires an `id` column, then executes the
generated upsert with conflict target `(id)` and no skip set. -/
def upsert_token (token : Row) (db : DB) : Except String DB :=
  if "id" ∉ Row.cols token then
    Except.error "token must include 'id'"
  else do
    let sql ← buildUpsertSql token ["id"] []
    Except.ok { db with token_registry := execUpsert sql db.token_registry }

/-- `list_tokens(enabled)`: optionally filter `enabled = 1/0`, order by
`symbol`. -/
def list_tokens (enabled : Option Bool) (db : DB) : List Row :=
  let rows := match enabled with
    | some b => db.token_registry.filter
        (fun r => sqlEq (sqlValue r "enabled") (Value.int (if b then 1 else 0)))
    | none => db.token_registry
  rows.insertionSort
    (fun a b => valueLe (sqlValue a "symbol") (sqlValue b "symbol") = true)

/-- A `DexAdapter`'s `fetch_1m_bar` capability: arguments `(chain,
token_address, pool_address, since_ts)`; an `error` result models a raised
transport exception. -/
def Adapter : Type := Value → Value → Value → Option Int → Except String (List Row)

/-- `_ADAPTERS.get(token["exchange"])`: the registry is keyed by strings,
so a non-TEXT exchange value finds no adapter. -/
def adapterLookup (adapters : List (String × Adapter)) (exch : Value) : Option Adapter :=
  match exch with
  | Value.str s => (adapters.find? (fun p => p.1 = s)).map Prod.snd
  | _ => none

/-- Python `d[c]`: the stored value, or a KeyError when the key is absent. -/
def getItem (r : Row) (c : String) : Except String Value :=
  match Row.get r c with
  | some v => Except.ok v
  | none => Except.error ("KeyError: " ++ c)

/-- Python `d.get(c, default)`. -/
def dictGetD (r : Row) (c : String) (d : Value) : Value :=
  (Row.get r c).getD d

/-- Python `{**a, **b}`: keys of `a` in place (values overridden by `b`
where shared), then the new keys of `b` in literal order. -/
def dictMerge (a b : Row) : Row :=
  List.map (fun p => match Row.get b p.1 with
    | some v => (p.1, v)
    | none => p) a ++
    List.filter (fun q => decide (q.1 ∉ Row.cols a)) b

/-- The persisted record for one raw bar of a tracked market:
`{**bar, "source": "dex", "exchange": ..., "chain": ..., "symbol": ...,
"base": ..., "quote": ...}`. -/
def tagPayload (tok : Row) (exch sym : Value) (bar : Row) : Row :=
  dictMerge bar
    [("source", Value.str "dex"), ("exchange", exch),
     ("chain", dictGetD tok "chain" (Value.str "")), ("symbol", sym),
     ("base", dictGetD tok "base" (Value.str "")),
     ("quote", dictGetD tok "quote" (Value.str ""))]

/-- The inner loop of `sync_registered_tokens`: upsert each fetched bar
of one token into `bars_1m`, counting the writes.  Building a payload
reads `token["exchange"]` and `token["symbol"]` (a KeyError propagates). -/
def ingestBars (tok : Row) : List Row → DB → Nat → Except String (DB × Nat)
  | [], db, n => Except.ok (db, n)
  | bar :: more, db, n => do
    let exch ← getItem tok "exchange"
    let sym ← getItem tok "symbol"
    let db' ← upsert_bar "bars_1m" (tagPayload tok exch sym bar) db
    ingestBars tok more db' (n + 1)

/-- The per-token loop of `sync_registered_tokens`: resolve the adapter by
`token["exchange"]` (skip when unregistered), fetch (skip the market when
the fetch raises; the log line then reads `token["symbol"]`), and ingest
the fetched bars. -/
def syncGo (adapters : List (String × Adapter)) (since_ts : Option Int) :
    List Row → DB → Nat → Except String (DB × Nat)
  | [], db, n => Except.ok (db, n)
  | tok :: rest, db, n => do
    let exch ← getItem tok "exchange"
    match adapterLookup adapters exch with
    | none => syncGo adapters since_ts rest db n
    | some f =>
      match f (dictGetD tok "chain" (Value.str ""))
          (dictGetD tok "token_address" (Value.str ""))
          (dictGetD tok "pool_address" Value.null) since_ts with
      | Except.error _ => do
          let _ ← getItem tok "symbol"
          syncGo adapters since_ts rest db n
      | Except.ok bars => do
          let (db', n') ← ingestBars tok bars db n
          syncGo adapters since_ts rest db' n'

/-- `sync_registered_tokens(since_ts)`: one ingestion cycle over the
enabled tracked markets, returning the updated store and the total count
of bars written. -/
def sync_registered_tokens (adapters : List (String × Adapter))
    (since_ts : Option Int) (db : DB) : Except String (DB × Nat) :=
  syncGo adapters since_ts (list_tokens (some true) db) db 0

/-- Reference computation for the theorems about a cycle: the adapter call
one token gives rise to (`none` when no adapter resolves). -/
def marketFetch (adapters : List (String × Adapter)) (since_ts : Option Int)
    (tok : Row) : Option (Except String (List Row)) :=
  (Row.get tok "exchange").bind (fun exch =>
    (adapterLookup adapters exch).map (fun f =>
      f (dictGetD tok "chain" (Value.str ""))
        (dictGetD tok "token_address" (Value.str ""))
        (dictGetD tok "pool_address" Value.null) since_ts))

/-- The raw bars one token contributes to a cycle: empty when its adapter
is unregistered or its fetch raises. -/
def marketBars (adapters : List (String × Adapter)) (since_ts : Option Int)
    (tok : Row) : List Row :=
  match marketFetch adapters since_ts tok with
  | some (Except.ok bars) => bars
  | _ => []

/-- The tagged records one token contributes to a cycle. -/
def marketPayloads (adapters : List (String × Adapter)) (since_ts : Option Int)
    (tok : Row) : List Row :=
  (marketBars adapters since_ts tok).map
    (tagPayload tok (sqlValue tok "exchange") (sqlValue tok "symbol"))

/-- Fold a sequence of bar upserts over the store. -/
def upsertMany (table : String) (ps : List Row) (db : DB) : Except String DB :=
  ps.foldlM (fun d p => upsert_bar table p d) db

/-- The store visible to a caller after a store call: unchanged when the
call raised before committing. -/
def storeAfter (r : Except String DB) (db : DB) : DB :=
  match r with
  | Except.ok db' => db'
  | Except.error _ => db

/-- The module-level names defined by `src/storage/sqlite_manager.py`. -/
def sqliteManagerFunctions : List String :=
  ["get_db_path", "_connect", "_execute", "_executemany", "_query",
   "_build_upsert_sql", "upsert_bar", "fetch_bars", "insert_event",
   "set_kv", "get_kv", "upsert_rule", "list_rules", "upsert_token",
   "list_tokens"]

/-- The `__all__` export list of `src/storage/sqlite_manager.py`. -/
def sqliteManagerAllExports : List String :=
  ["get_db_path", "upsert_bar", "fetch_bars", "insert_event", "set_kv",
   "get_kv", "upsert_rule", "list_rules", "upsert_token", "list_tokens"]

/-- The `sqlite_manager` attributes the dashboard page of `src/ui/app.py`
resolves for its latest-bar and undelivered-event panels. -/
def dashboardStoreCalls : List String :=
  ["fetch_latest_bar", "fetch_undelivered_events"]

/-! Basic lemmas about rows, column updates and conflict detection. -/

theorem Row.get_set_self (r : Row) (c : String) (v : Value) :
    Row.get (Row.set r c v) c = some v := by
  induction r with
  | nil => simp [Row.set, Row.get]
  | cons p rest ih =>
    by_cases h : p.1 = c
    · simp [Row.set, h, Row.get]
    · simp [Row.set, h, Row.get, ih]

theorem Row.get_set_other (r : Row) (c c' : String) (v : Value) (h : c' ≠ c) :
    Row.get (Row.set r c v) c' = Row.get r c' := by
  have h' : ¬ c = c' := fun hh => h hh.symm
  induction r with
  | nil => simp [Row.set, Row.get, h']
  | cons p rest ih =>
    by_cases hp : p.1 = c
    · simp [Row.set, hp, Row.get, h']
    · simp [Row.set, hp, Row.get, ih]

theorem sqlValue_set_self (r : Row) (c : String) (v : Value) :
    sqlValue (Row.set r c v) c = v := by
  simp [sqlValue, Row.get_set_self]

theorem sqlValue_set_other (r : Row) (c c' : String) (v : Value) (h : c' ≠ c) :
    sqlValue (Row.set r c v) c' = sqlValue r c' := by
  simp [sqlValue, Row.get_set_other r c c' v h]

theorem applyUpdate_nil (p r : Row) : applyUpdate [] p r = r := rfl

theorem applyUpdate_cons (u : String) (us : List String) (p r : Row) :
    applyUpdate (u :: us) p r = applyUpdate us p (Row.set r u (sqlValue p u)) := rfl

theorem sqlValue_applyUpdate_not_mem (us : List String) (p r : Row) (c : String)
    (h : c ∉ us) : sqlValue (applyUpdate us p r) c = sqlValue r c := by
  induction us generalizing r with
  | nil => rfl
  | cons u us ih =>
    rw [applyUpdate_cons]
    have hc : c ≠ u := fun hh => h (hh ▸ List.mem_cons_self u us)
    rw [ih _ (fun hh => h (List.mem_cons_of_mem u hh)), sqlValue_set_other _ _ _ _ hc]

theorem sqlValue_applyUpdate_mem (us : List String) (p r : Row) (c : String)
    (h : c ∈ us) : sqlValue (applyUpdate us p r) c = sqlValue p c := by
  induction us generalizing r with
  | nil => cases h
  | cons u us ih =>
    rw [applyUpdate_cons]
    by_cases hc : c ∈ us
    · exact ih _ hc
    · have : c = u := by
        rcases List.mem_cons.mp h with h1 | h2
        · exact h1
        · exact absurd h2 hc
      subst this
      rw [sqlValue_applyUpdate_not_mem _ _ _ _ hc, sqlValue_set_self]

theorem conflictsWith_iff (cols : List String) (p r : Row) :
    conflictsWith cols p r = true ↔
      ∀ c ∈ cols, sqlValue p c ≠ Value.null ∧ sqlValue p c = sqlValue r c := by
  simp [conflictsWith, List.all_eq_true]

theorem getTable_setTable (db : DB) (t : String) (l : List Row)
    (h : t ∈ allowedBarTables) : (db.setTable t l).getTable t = l := by
  simp [allowedBarTables] at h
  rcases h with h | h | h <;> subst h <;> simp [DB.getTable, DB.setTable]

theorem cols_ne_nil (bar : Row) (hb : bar ≠ ([] : Row)) : Row.cols bar ≠ [] := by
  cases bar with
  | nil => exact absurd rfl hb
  | cons p rest => simp [Row.cols]

theorem upsert_bar_eq_ok (t : String) (bar : Row) (db : DB)
    (ht : t ∈ allowedBarTables) (hb : bar ≠ ([] : Row)) :
    upsert_bar t bar db = Except.ok (db.setTable t (execUpsert
      { conflictColumns := barIdColumns,
        updateColumns := Row.cols bar |>.filter
          (fun c => decide (c ∉ barIdColumns ∧ c ∉ ["bid"])),
        payload := bar } (db.getTable t))) := by
  simp [upsert_bar, ht, hb, buildUpsertSql, cols_ne_nil bar hb, Bind.bind, Except.bind]

theorem kvFind_kvUpsert (k v : String) (ts : Int) (l : List KvRow) :
    kvFind k (kvUpsert k v ts l) = some { key := k, value := v, updated_at := ts } := by
  induction l with
  | nil => simp [kvUpsert, kvFind]
  | cons r rest ih =>
    by_cases h : r.key = k
    · simp [kvUpsert, h, kvFind]
    · simp [kvUpsert, h, kvFind, ih]

theorem execUpsert_do_nothing (u : UpsertSql) (tbl : List Row)
    (hu : u.updateColumns = [])
    (hc : ∃ r ∈ tbl, conflictsWith u.conflictColumns u.payload r = true) :
    execUpsert u tbl = tbl := by
  induction tbl with
  | nil =>
    rcases hc with ⟨r, hr, _⟩
    cases hr
  | cons r rest ih =>
    by_cases h : conflictsWith u.conflictColumns u.payload r
    · simp [execUpsert, h, hu]
    · rcases hc with ⟨r', hr', hcf⟩
      rcases List.mem_cons.mp hr' with rfl | hmem
      · exact absurd hcf (by simp [h])
      · simp [execUpsert, h, ih ⟨r', hmem, hcf⟩]

theorem string_append_left_cancel {a b c : String} (h : a ++ b = a ++ c) : b = c := by
  apply String.ext
  have hd := congrArg String.data h
  rw [String.data_append, String.data_append] at hd
  exact List.append_cancel_left hd

theorem bars_table_of_timeframe (tf : String) :
    ("bars_" ++ tf ∈ allowedBarTables) ↔ tf ∈ ["1m", "5m", "15m"] := by
  constructor
  · intro h
    simp only [allowedBarTables, List.mem_cons, List.not_mem_nil, or_false] at h
    rcases h with h | h | h
    · have : tf = "1m" := string_append_left_cancel (a := "bars_")
        (h.trans (by rfl : ("bars_1m" : String) = "bars_" ++ "1m"))
      subst this; decide
    · have : tf = "5m" := string_append_left_cancel (a := "bars_")
        (h.trans (by rfl : ("bars_5m" : String) = "bars_" ++ "5m"))
      subst this; decide
    · have : tf = "15m" := string_append_left_cancel (a := "bars_")
        (h.trans (by rfl : ("bars_15m" : String) = "bars_" ++ "15m"))
      subst this; decide
  · intro h
    simp only [List.mem_cons, List.not_mem_nil, or_false] at h
    rcases h with h | h | h <;> subst h <;> decide

/-- C9: a `set_kv` followed by `get_kv` of the same key returns the value
and timestamp just written, and a later `set_kv` for the key overwrites
both (last write wins). -/
theorem c9_watermark_round_trip (db : DB) (k v v₂ : String) (t t₂ : Int) :
    get_kv k (set_kv k v t db) = some { key := k, value := v, updated_at := t } ∧
    get_kv k (set_kv k v₂ t₂ (set_kv k v t db)) =
      some { key := k, value := v₂, updated_at := t₂ } := by
  constructor <;> simp [get_kv, set_kv, kvFind_kvUpsert]

/-- C8: `upsert_bar` fails exactly when the table name is unsupported or
the bar payload is empty, and on failure the store visible to the caller
is unchanged. -/
theorem c8_validation_failure_atomic (t : String) (bar : Row) (db : DB) :
    ((∃ e, upsert_bar t bar db = Except.error e) ↔
      (t ∉ allowedBarTables ∨ bar = ([] : Row))) ∧
    ((t ∉ allowedBarTables ∨ bar = ([] : Row)) →
      storeAfter (upsert_bar t bar db) db = db) := by
  by_cases ht : t ∈ allowedBarTables
  · by_cases hb : bar = ([] : Row)
    · subst hb
      refine ⟨⟨fun _ => Or.inr rfl, fun _ => ⟨"bar payload is empty", ?_⟩⟩, fun _ => ?_⟩
      · simp [upsert_bar, ht]
      · simp [storeAfter, upsert_bar, ht]
    · have h := upsert_bar_eq_ok t bar db ht hb
      refine ⟨⟨?_, ?_⟩, ?_⟩
      · rintro ⟨e, he⟩
        rw [h] at he
        cases he
      · rintro (h1 | h2)
        · exact absurd ht h1
        · exact absurd h2 hb
      · rintro (h1 | h2)
        · exact absurd ht h1
        · exact absurd h2 hb
  · refine ⟨⟨fun _ => Or.inl ht, fun _ => ⟨"Unsupported bars table: " ++ t, ?_⟩⟩, fun _ => ?_⟩
    · simp [upsert_bar, ht]
    · simp [storeAfter, upsert_bar, ht]

/-- C8 witness: a concrete invalid table and a concrete empty payload. -/
theorem c8_validation_failure_atomic_witness :
    ((∃ e, upsert_bar "bars_1h" [("close_ts", Value.int 1)] emptyDB = Except.error e) ↔
      ("bars_1h" ∉ allowedBarTables ∨ [("close_ts", Value.int 1)] = ([] : Row))) ∧
    storeAfter (upsert_bar "bars_1m" [] emptyDB) emptyDB = emptyDB :=
  ⟨(c8_validation_failure_atomic "bars_1h" [("close_ts", Value.int 1)] emptyDB).1,
   (c8_validation_failure_atomic "bars_1m" [] emptyDB).2 (Or.inr rfl)⟩

/-- C3: writing through `upsert_bar` or reading through `fetch_bars`
succeeds for the table of a timeframe exactly when the timeframe is one
of 1m, 5m, 15m; every other value is rejected with an error. -/
theorem c3_timeframe_allow_set (tf : String) (bar : Row) (db : DB) (sym : String)
    (since limit : Option Int) (hb : bar ≠ ([] : Row)) :
    ((∃ db', upsert_bar ("bars_" ++ tf) bar db = Except.ok db') ↔
      tf ∈ ["1m", "5m", "15m"]) ∧
    ((∃ rs, fetch_bars ("bars_" ++ tf) sym since limit db = Except.ok rs) ↔
      tf ∈ ["1m", "5m", "15m"]) := by
  by_cases h : "bars_" ++ tf ∈ allowedBarTables
  · have htf := (bars_table_of_timeframe tf).mp h
    have hfetch : ∃ rs, fetch_bars ("bars_" ++ tf) sym since limit db = Except.ok rs := by
      unfold fetch_bars
      rw [if_neg (not_not_intro h)]
      exact ⟨_, rfl⟩
    exact ⟨⟨fun _ => htf, fun _ => ⟨_, upsert_bar_eq_ok _ bar db h hb⟩⟩,
           ⟨fun _ => htf, fun _ => hfetch⟩⟩
  · have htf : tf ∉ ["1m", "5m", "15m"] := fun hm => h ((bars_table_of_timeframe tf).mpr hm)
    refine ⟨⟨?_, fun hm => absurd hm htf⟩, ⟨?_, fun hm => absurd hm htf⟩⟩
    · rintro ⟨db', hdb⟩
      simp [upsert_bar, h] at hdb
    · rintro ⟨rs, hrs⟩
      simp [fetch_bars, h] at hrs

/-- C3 witness: timeframe 1m is accepted on a concrete nonempty payload. -/
theorem c3_timeframe_allow_set_witness :
    (∃ db', upsert_bar ("bars_" ++ "1m") [("close_ts", Value.int 1)] emptyDB
      = Except.ok db') ↔ "1m" ∈ ["1m", "5m", "15m"] :=
  (c3_timeframe_allow_set "1m" [("close_ts", Value.int 1)] emptyDB "X" none none
    (by decide)).1

/-- C4 (code bug): the dashboard page resolves `fetch_latest_bar` and
`fetch_undelivered_events` on the store module, but the store module
defines neither name (nor exports them), so the claimed latest-bar and
undelivered-event read operations do not exist. -/
theorem c4_missing_read_api :
    "fetch_latest_bar" ∈ dashboardStoreCalls ∧
    "fetch_undelivered_events" ∈ dashboardStoreCalls ∧
    "fetch_latest_bar" ∉ sqliteManagerFunctions ∧
    "fetch_undelivered_events" ∉ sqliteManagerFunctions ∧
    "fetch_latest_bar" ∉ sqliteManagerAllExports ∧
    "fetch_undelivered_events" ∉ sqliteManagerAllExports := by
  decide

/-- The statement shape `_build_upsert_sql` produces for the three
upsert-by-id tables (conflict target `(id)`, no skip set). -/
def idUpsertSql (p : Row) : UpsertSql :=
  { conflictColumns := ["id"],
    updateColumns := Row.cols p |>.filter
      (fun c => decide (c ∉ (["id"] : List String) ∧ c ∉ ([] : List String))),
    payload := p }

theorem insert_event_eq_ok (p : Row) (db : DB) (hid : "id" ∈ Row.cols p) :
    insert_event p db =
      Except.ok { db with events := execUpsert (idUpsertSql p) db.events } := by
  simp [insert_event, hid, buildUpsertSql, List.ne_nil_of_mem hid, idUpsertSql,
    Bind.bind, Except.bind]

theorem upsert_rule_eq_ok (p : Row) (db : DB) (hid : "id" ∈ Row.cols p) :
    upsert_rule p db =
      Except.ok { db with price_alert_rules := execUpsert (idUpsertSql p) db.price_alert_rules } := by
  simp [upsert_rule, hid, buildUpsertSql, List.ne_nil_of_mem hid, idUpsertSql,
    Bind.bind, Except.bind]

theorem upsert_token_eq_ok (p : Row) (db : DB) (hid : "id" ∈ Row.cols p) :
    upsert_token p db =
      Except.ok { db with token_registry := execUpsert (idUpsertSql p) db.token_registry } := by
  simp [upsert_token, hid, buildUpsertSql, List.ne_nil_of_mem hid, idUpsertSql,
    Bind.bind, Except.bind]

/-- C10: for each upsert-by-id operation, a payload holding only the `id`
column against an existing row with that id generates a conflict-do-nothing
statement: no error, and the store is returned unchanged. -/
theorem c10_key_only_upserts_are_noops (db : DB) (v : Value) (hv : v ≠ Value.null)
    (he : ∃ r ∈ db.events, sqlValue r "id" = v)
    (hr : ∃ r ∈ db.price_alert_rules, sqlValue r "id" = v)
    (htk : ∃ r ∈ db.token_registry, sqlValue r "id" = v) :
    insert_event [("id", v)] db = Except.ok db ∧
    upsert_rule [("id", v)] db = Except.ok db ∧
    upsert_token [("id", v)] db = Except.ok db := by
  have hval : sqlValue [("id", v)] "id" = v := by simp [sqlValue, Row.get]
  have hconf : ∀ r : Row, sqlValue r "id" = v →
      conflictsWith ["id"] [("id", v)] r = true := by
    intro r h
    rw [conflictsWith_iff]
    intro c hc
    simp only [List.mem_singleton] at hc
    subst hc
    rw [hval]
    exact ⟨hv, h.symm⟩
  have hid : "id" ∈ Row.cols [("id", v)] := by simp [Row.cols]
  have hupd : (idUpsertSql [("id", v)]).updateColumns = [] := by
    simp [idUpsertSql, Row.cols]
  refine ⟨?_, ?_, ?_⟩
  · rw [insert_event_eq_ok _ _ hid,
      execUpsert_do_nothing _ _ hupd
        (by rcases he with ⟨r, hm, hx⟩; exact ⟨r, hm, hconf r hx⟩)]
  · rw [upsert_rule_eq_ok _ _ hid,
      execUpsert_do_nothing _ _ hupd
        (by rcases hr with ⟨r, hm, hx⟩; exact ⟨r, hm, hconf r hx⟩)]
  · rw [upsert_token_eq_ok _ _ hid,
      execUpsert_do_nothing _ _ hupd
        (by rcases htk with ⟨r, hm, hx⟩; exact ⟨r, hm, hconf r hx⟩)]

/-- A store with one event, one rule and one token row, all of id `e1`. -/
def idWitnessDb : DB :=
  { emptyDB with
    events := [[("id", Value.str "e1"), ("x", Value.int 1)]],
    price_alert_rules := [[("id", Value.str "e1"), ("level", Value.int 2)]],
    token_registry := [[("id", Value.str "e1"), ("symbol", Value.str "S")]] }

/-- C10 witness: the id-only payload `{id: e1}` against `idWitnessDb`. -/
theorem c10_key_only_upserts_are_noops_witness :
    insert_event [("id", Value.str "e1")] idWitnessDb = Except.ok idWitnessDb ∧
    upsert_rule [("id", Value.str "e1")] idWitnessDb = Except.ok idWitnessDb ∧
    upsert_token [("id", Value.str "e1")] idWitnessDb = Except.ok idWitnessDb :=
  c10_key_only_upserts_are_noops idWitnessDb (Value.str "e1") (by decide)
    ⟨[("id", Value.str "e1"), ("x", Value.int 1)], by decide, by decide⟩
    ⟨[("id", Value.str "e1"), ("level", Value.int 2)], by decide, by decide⟩
    ⟨[("id", Value.str "e1"), ("symbol", Value.str "S")], by decide, by decide⟩

theorem execUpsert_update (u : UpsertSql) (l₁ l₂ : List Row) (r : Row)
    (h₁ : ∀ x ∈ l₁, conflictsWith u.conflictColumns u.payload x = false)
    (hr : conflictsWith u.conflictColumns u.payload r = true) :
    execUpsert u (l₁ ++ r :: l₂) =
      l₁ ++ (if u.updateColumns = [] then r
             else applyUpdate u.updateColumns u.payload r) :: l₂ := by
  induction l₁ with
  | nil =>
    by_cases hu : u.updateColumns = [] <;> simp [execUpsert, hr, hu]
  | cons x xs ih =>
    have hx := h₁ x (List.mem_cons_self x xs)
    simp [execUpsert, hx, ih (fun y hy => h₁ y (List.mem_cons_of_mem x hy))]

theorem if_nil_applyUpdate (us : List String) (p r : Row) :
    (if us = [] then r else applyUpdate us p r) = applyUpdate us p r := by
  split
  · rename_i h
    subst h
    rfl
  · rfl

/-- C2: a second `upsert_bar` hitting an existing row's composite identity
merges into that row: every payload column outside the identity and the
`bid` skip set is overwritten with the incoming value, while `bid`, the
identity columns and every column absent from the payload keep the prior
row's values. -/
theorem c2_merge_preserves_bid (t : String) (p r : Row) (db : DB) (l₁ l₂ : List Row)
    (ht : t ∈ allowedBarTables) (hp : p ≠ ([] : Row))
    (htbl : db.getTable t = l₁ ++ r :: l₂)
    (h₁ : ∀ x ∈ l₁, conflictsWith barIdColumns p x = false)
    (hr : conflictsWith barIdColumns p r = true) :
    ∃ m, upsert_bar t p db = Except.ok (db.setTable t (l₁ ++ m :: l₂)) ∧
      (∀ c ∈ Row.cols p, c ∉ barIdColumns → c ≠ "bid" → sqlValue m c = sqlValue p c) ∧
      sqlValue m "bid" = sqlValue r "bid" ∧
      (∀ c, c ∉ Row.cols p → sqlValue m c = sqlValue r c) ∧
      (∀ c ∈ barIdColumns, sqlValue m c = sqlValue r c) := by
  have heq := upsert_bar_eq_ok t p db ht hp
  rw [htbl] at heq
  have hexec : execUpsert
      { conflictColumns := barIdColumns,
        updateColumns := Row.cols p |>.filter
          (fun c => decide (c ∉ barIdColumns ∧ c ∉ (["bid"] : List String))),
        payload := p } (l₁ ++ r :: l₂) =
      l₁ ++ applyUpdate (Row.cols p |>.filter
          (fun c => decide (c ∉ barIdColumns ∧ c ∉ (["bid"] : List String)))) p r :: l₂ := by
    rw [execUpsert_update _ l₁ l₂ r h₁ hr, if_nil_applyUpdate]
  rw [hexec] at heq
  set us := Row.cols p |>.filter
      (fun c => decide (c ∉ barIdColumns ∧ c ∉ (["bid"] : List String))) with husdef
  refine ⟨applyUpdate us p r, heq, ?_, ?_, ?_, ?_⟩
  · intro c hc hcid hcbid
    refine sqlValue_applyUpdate_mem us p r c ?_
    rw [husdef]
    refine List.mem_filter.mpr ⟨hc, ?_⟩
    simp [hcid, hcbid]
  · refine sqlValue_applyUpdate_not_mem us p r "bid" ?_
    rw [husdef]
    intro hmem
    have := List.mem_filter.mp hmem
    simp at this
  · intro c hc
    refine sqlValue_applyUpdate_not_mem us p r c ?_
    rw [husdef]
    intro hmem
    exact hc (List.mem_filter.mp hmem).1
  · intro c hc
    refine sqlValue_applyUpdate_not_mem us p r c ?_
    rw [husdef]
    intro hmem
    have := (List.mem_filter.mp hmem).2
    simp at this
    exact this.1 hc

/-- C2 witness: a stored candle with `bid = 5`; a second write of the same
identity with a different `bid` and changed OHLCV fields. -/
theorem c2_merge_preserves_bid_witness :
    ∃ m, upsert_bar "bars_1m"
      [("source", Value.str "dex"), ("exchange", Value.str "e"),
       ("chain", Value.str ""), ("symbol", Value.str "S"),
       ("close_ts", Value.int 60), ("close", Value.int 11), ("bid", Value.int 7)]
      (emptyDB.setTable "bars_1m"
        [[("source", Value.str "dex"), ("exchange", Value.str "e"),
          ("chain", Value.str ""), ("symbol", Value.str "S"),
          ("close_ts", Value.int 60), ("close", Value.int 10), ("bid", Value.int 5)]])
      = Except.ok ((emptyDB.setTable "bars_1m"
        [[("source", Value.str "dex"), ("exchange", Value.str "e"),
          ("chain", Value.str ""), ("symbol", Value.str "S"),
          ("close_ts", Value.int 60), ("close", Value.int 10), ("bid", Value.int 5)]]).setTable
          "bars_1m" ([] ++ m :: [])) ∧
      sqlValue m "close" = Value.int 11 ∧ sqlValue m "bid" = Value.int 5 := by
  obtain ⟨m, h1, h2, h3, h4, h5⟩ := c2_merge_preserves_bid "bars_1m"
    [("source", Value.str "dex"), ("exchange", Value.str "e"),
     ("chain", Value.str ""), ("symbol", Value.str "S"),
     ("close_ts", Value.int 60), ("close", Value.int 11), ("bid", Value.int 7)]
    [("source", Value.str "dex"), ("exchange", Value.str "e"),
     ("chain", Value.str ""), ("symbol", Value.str "S"),
     ("close_ts", Value.int 60), ("close", Value.int 10), ("bid", Value.int 5)]
    (emptyDB.setTable "bars_1m"
      [[("source", Value.str "dex"), ("exchange", Value.str "e"),
        ("chain", Value.str ""), ("symbol", Value.str "S"),
        ("close_ts", Value.int 60), ("close", Value.int 10), ("bid", Value.int 5)]])
    [] [] (by decide) (by decide) (by decide) (by decide) (by decide)
  exact ⟨m, h1, h2 "close" (by decide) (by decide) (by decide),
    (h3.trans (by decide))⟩

/-- C1 counterexample: two `insert_event` calls with id `e1` and different
payloads; the second call overwrites the stored `payload` column (the SQL
generated for a payload with non-id columns is DO UPDATE, not DO NOTHING),
so the first row is not left intact. -/
theorem c1_counterexample :
    insert_event [("id", Value.str "e1"), ("payload", Value.str "a")] emptyDB
      = Except.ok { emptyDB with
          events := [[("id", Value.str "e1"), ("payload", Value.str "a")]] } ∧
    insert_event [("id", Value.str "e1"), ("payload", Value.str "b")]
      { emptyDB with
        events := [[("id", Value.str "e1"), ("payload", Value.str "a")]] }
      = Except.ok { emptyDB with
          events := [[("id", Value.str "e1"), ("payload", Value.str "b")]] } ∧
    ([[("id", Value.str "e1"), ("payload", Value.str "b")]] : List Row)
      ≠ [[("id", Value.str "e1"), ("payload", Value.str "a")]] := by
  decide

/-- C1 amended: re-inserting an existing event id raises no error, but is
an overwrite, not a no-op: every non-id column present in the new payload
is overwritten with the incoming value, while the id and the columns
absent from the new payload keep the stored row's values (the call is a
no-op only when the payload carries no column besides `id`). -/
theorem c1_event_reinsert_overwrites (p r : Row) (db : DB) (l₁ l₂ : List Row)
    (hid : "id" ∈ Row.cols p)
    (hev : db.events = l₁ ++ r :: l₂)
    (h₁ : ∀ x ∈ l₁, conflictsWith ["id"] p x = false)
    (hr : conflictsWith ["id"] p r = true) :
    ∃ m, insert_event p db = Except.ok { db with events := l₁ ++ m :: l₂ } ∧
      (∀ c ∈ Row.cols p, c ≠ "id" → sqlValue m c = sqlValue p c) ∧
      sqlValue m "id" = sqlValue r "id" ∧
      (∀ c, c ∉ Row.cols p → sqlValue m c = sqlValue r c) := by
  have heq := insert_event_eq_ok p db hid
  rw [hev] at heq
  have hexec : execUpsert (idUpsertSql p) (l₁ ++ r :: l₂) =
      l₁ ++ applyUpdate (idUpsertSql p).updateColumns p r :: l₂ := by
    rw [execUpsert_update _ l₁ l₂ r h₁ hr, if_nil_applyUpdate]
    rfl
  rw [hexec] at heq
  refine ⟨applyUpdate (idUpsertSql p).updateColumns p r, heq, ?_, ?_, ?_⟩
  · intro c hc hcid
    refine sqlValue_applyUpdate_mem _ p r c ?_
    refine List.mem_filter.mpr ⟨hc, ?_⟩
    simp [hcid]
  · refine sqlValue_applyUpdate_not_mem _ p r "id" ?_
    intro hmem
    have := (List.mem_filter.mp hmem).2
    simp at this
  · intro c hc
    refine sqlValue_applyUpdate_not_mem _ p r c ?_
    intro hmem
    exact hc (List.mem_filter.mp hmem).1

/-- C1 amended witness: re-inserting id `e1` with payload `b` over stored
payload `a` yields a row whose `payload` is `b` and whose id is kept. -/
theorem c1_event_reinsert_overwrites_witness :
    ∃ m, insert_event [("id", Value.str "e1"), ("payload", Value.str "b")]
      { emptyDB with
        events := [[("id", Value.str "e1"), ("payload", Value.str "a")]] }
      = Except.ok { emptyDB with events := [] ++ m :: [] } ∧
      sqlValue m "payload" = Value.str "b" ∧
      sqlValue m "id" = Value.str "e1" := by
  obtain ⟨m, h1, h2, h3, h4⟩ := c1_event_reinsert_overwrites
    [("id", Value.str "e1"), ("payload", Value.str "b")]
    [("id", Value.str "e1"), ("payload", Value.str "a")]
    { emptyDB with
      events := [[("id", Value.str "e1"), ("payload", Value.str "a")]] }
    [] [] (by decide) (by decide) (by decide) (by decide)
  exact ⟨m, h1, h2 "payload" (by decide) (by decide), h3.trans (by decide)⟩

theorem charsLe_trans : ∀ a b c : List Char, charsLe a b = true →
    charsLe b c = true → charsLe a c = true := by
  intro a
  induction a with
  | nil => intro b c _ _; rfl
  | cons x xs ih =>
    intro b c h1 h2
    cases b with
    | nil => simp [charsLe] at h1
    | cons y ys =>
      cases c with
      | nil => simp [charsLe] at h2
      | cons z zs =>
        simp only [charsLe] at h1 h2 ⊢
        split at h1
        · rename_i hxy
          split at h2
          · rename_i hyz
            rw [if_pos (by omega)]
          · split at h2
            · simp at h2
            · rename_i hyz1 hyz2
              rw [if_pos (by omega)]
        · split at h1
          · simp at h1
          · rename_i hxy1 hxy2
            split at h2
            · rename_i hyz
              rw [if_pos (by omega)]
            · split at h2
              · simp at h2
              · rename_i hyz1 hyz2
                rw [if_neg (by omega), if_neg (by omega)]
                exact ih ys zs h1 h2

theorem charsLe_total : ∀ a b : List Char, charsLe a b = true ∨ charsLe b a = true := by
  intro a
  induction a with
  | nil => intro b; left; rfl
  | cons x xs ih =>
    intro b
    cases b with
    | nil => right; rfl
    | cons y ys =>
      simp only [charsLe]
      rcases Nat.lt_trichotomy x.toNat y.toNat with h | h | h
      · left
        rw [if_pos h]
      · rcases ih ys with h2 | h2
        · left
          rw [if_neg (by omega), if_neg (by omega)]
          exact h2
        · right
          rw [if_neg (by omega), if_neg (by omega)]
          exact h2
      · right
        rw [if_pos h]

theorem valueLe_trans : ∀ a b c : Value, valueLe a b = true → valueLe b c = true →
    valueLe a c = true := by
  intro a b c hab hbc
  cases a <;> cases b <;> cases c <;> simp_all [valueLe]
  · omega
  · exact charsLe_trans _ _ _ hab hbc

theorem valueLe_total : ∀ a b : Value, valueLe a b = true ∨ valueLe b a = true := by
  intro a b
  cases a <;> cases b <;> simp [valueLe]
  · omega
  · exact charsLe_total _ _

theorem sqlEq_eq {x y : Value} (h : sqlEq x y = true) : x = y := by
  simp [sqlEq] at h
  exact h.2

theorem mem_filterSymbol {sym : String} {l : List Row} {r : Row}
    (h : r ∈ filterSymbol sym l) :
    r ∈ l ∧ sqlValue r "symbol" = Value.str sym := by
  have hm := List.mem_filter.mp h
  exact ⟨hm.1, sqlEq_eq hm.2⟩

theorem mem_applySince {since : Option Int} {l : List Row} {r : Row}
    (h : r ∈ applySince since l) :
    r ∈ l ∧ ∀ ts, since = some ts → sqlGe (sqlValue r "close_ts") (Value.int ts) = true := by
  cases since with
  | none => exact ⟨h, fun ts hts => by cases hts⟩
  | some ts =>
    have hm := List.mem_filter.mp h
    refine ⟨hm.1, fun ts' hts' => ?_⟩
    cases hts'
    exact hm.2

theorem mem_sortByCloseTs {l : List Row} {r : Row} : r ∈ sortByCloseTs l ↔ r ∈ l :=
  (List.perm_insertionSort _ l).mem_iff

theorem pairwise_sortByCloseTs (l : List Row) :
    (sortByCloseTs l).Pairwise
      (fun a b => valueLe (sqlValue a "close_ts") (sqlValue b "close_ts") = true) := by
  haveI : IsTotal Row (fun a b => valueLe (sqlValue a "close_ts") (sqlValue b "close_ts") = true) :=
    ⟨fun a b => valueLe_total _ _⟩
  haveI : IsTrans Row (fun a b => valueLe (sqlValue a "close_ts") (sqlValue b "close_ts") = true) :=
    ⟨fun a b c => valueLe_trans _ _ _⟩
  exact List.sorted_insertionSort _ l

theorem applyLimit_sublist (limit : Option Int) (l : List Row) :
    (applyLimit limit l).Sublist l := by
  cases limit with
  | none => exact List.Sublist.refl l
  | some n =>
    simp only [applyLimit]
    split
    · exact List.Sublist.refl l
    · exact List.take_sublist _ _

theorem applyLimit_length (n : Int) (hn : 0 ≤ n) (l : List Row) :
    ((applyLimit (some n) l).length : Int) ≤ n := by
  simp only [applyLimit]
  rw [if_neg (by omega)]
  have h := List.length_take_le n.toNat l
  omega

/-- C7 counterexample: a negative limit does not cap the result (SQLite
treats a negative LIMIT as unbounded), so with `limit = -1` one row comes
back although 1 ≤ -1 fails. -/
theorem c7_counterexample :
    fetch_bars "bars_1m" "X" none (some (-1))
      (emptyDB.setTable "bars_1m"
        [[("symbol", Value.str "X"), ("close_ts", Value.int 1)]])
      = Except.ok [[("symbol", Value.str "X"), ("close_ts", Value.int 1)]] ∧
    ¬ ((([[("symbol", Value.str "X"), ("close_ts", Value.int 1)]] : List Row).length : Int)
        ≤ -1) := by
  decide

/-- C7 amended: for a valid timeframe table, `fetch_bars` returns only
rows of the requested symbol, ordered non-decreasing in `close_ts` (SQLite
value order), filtered to `close_ts >= since_ts` when `since_ts` is given,
and capped at `limit` rows whenever the given limit is non-negative. -/
theorem c7_fetch_bars_contract (t sym : String) (since limit : Option Int)
    (db : DB) (ht : t ∈ allowedBarTables) :
    ∃ rs, fetch_bars t sym since limit db = Except.ok rs ∧
      (∀ r ∈ rs, sqlValue r "symbol" = Value.str sym) ∧
      rs.Pairwise (fun a b => valueLe (sqlValue a "close_ts") (sqlValue b "close_ts") = true) ∧
      (∀ ts, since = some ts → ∀ r ∈ rs,
        sqlGe (sqlValue r "close_ts") (Value.int ts) = true) ∧
      (∀ ts, since = some ts → ∀ r ∈ rs, ∀ n,
        sqlValue r "close_ts" = Value.int n → ts ≤ n) ∧
      (∀ l, limit = some l → 0 ≤ l → (rs.length : Int) ≤ l) := by
  refine ⟨applyLimit limit (sortByCloseTs (applySince since (filterSymbol sym
    (db.getTable t)))), ?_, ?_, ?_, ?_, ?_, ?_⟩
  · unfold fetch_bars
    rw [if_neg (not_not_intro ht)]
  · intro r hr
    have h1 := (applyLimit_sublist limit _).subset hr
    have h2 := mem_sortByCloseTs.mp h1
    exact (mem_filterSymbol (mem_applySince h2).1).2
  · exact (pairwise_sortByCloseTs _).sublist (applyLimit_sublist limit _)
  · intro ts hts r hr
    have h1 := (applyLimit_sublist limit _).subset hr
    have h2 := mem_sortByCloseTs.mp h1
    exact (mem_applySince h2).2 ts hts
  · intro ts hts r hr n hn
    have h1 := (applyLimit_sublist limit _).subset hr
    have h2 := mem_sortByCloseTs.mp h1
    have h3 := (mem_applySince h2).2 ts hts
    rw [hn] at h3
    simp [sqlGe, valueLe] at h3
    exact h3
  · intro l hl hl0
    subst hl
    exact applyLimit_length l hl0 _

/-- C7 witness: a store with two out-of-order bars of symbol X and one of
symbol Y, queried with `since_ts = 1` and `limit = 5`. -/
theorem c7_fetch_bars_contract_witness :
    ("bars_5m" ∈ allowedBarTables) ∧
    ∃ rs, fetch_bars "bars_5m" "X" (some 1) (some 5)
      (emptyDB.setTable "bars_5m"
        [[("symbol", Value.str "X"), ("close_ts", Value.int 9)],
         [("symbol", Value.str "Y"), ("close_ts", Value.int 2)],
         [("symbol", Value.str "X"), ("close_ts", Value.int 4)]])
      = Except.ok rs ∧
      (∀ r ∈ rs, sqlValue r "symbol" = Value.str "X") ∧
      rs.Pairwise (fun a b => valueLe (sqlValue a "close_ts") (sqlValue b "close_ts") = true) ∧
      (∀ ts, (some 1 : Option Int) = some ts → ∀ r ∈ rs,
        sqlGe (sqlValue r "close_ts") (Value.int ts) = true) ∧
      (∀ ts, (some 1 : Option Int) = some ts → ∀ r ∈ rs, ∀ n,
        sqlValue r "close_ts" = Value.int n → ts ≤ n) ∧
      (∀ l, (some 5 : Option Int) = some l → 0 ≤ l → (rs.length : Int) ≤ l) :=
  ⟨by decide, c7_fetch_bars_contract "bars_5m" "X" (some 1) (some 5)
    (emptyDB.setTable "bars_5m"
      [[("symbol", Value.str "X"), ("close_ts", Value.int 9)],
       [("symbol", Value.str "Y"), ("close_ts", Value.int 2)],
       [("symbol", Value.str "X"), ("close_ts", Value.int 4)]]) (by decide)⟩

/-- The composite identity of a bar row: its values in the five conflict
columns. -/
def barIdentity (r : Row) : List Value :=
  barIdColumns.map (fun c => sqlValue r c)

/-- A payload carrying a non-NULL value in every identity column (the
shape every real bar write has; with a NULL key SQLite would never
conflict). -/
def fullyKeyed (r : Row) : Prop :=
  ∀ c ∈ barIdColumns, sqlValue r c ≠ Value.null

instance (r : Row) : Decidable (fullyKeyed r) := by
  unfold fullyKeyed
  infer_instance

theorem fullyKeyed_ne_nil {p : Row} (hp : fullyKeyed p) : p ≠ ([] : Row) := by
  intro h
  subst h
  exact hp "source" (by decide) rfl

theorem conflictsWith_id_iff {p r : Row} (hp : fullyKeyed p) :
    conflictsWith barIdColumns p r = true ↔ barIdentity r = barIdentity p := by
  rw [conflictsWith_iff]
  constructor
  · intro h
    exact List.map_inj_left.mpr (fun c hc => ((h c hc).2).symm)
  · intro h c hc
    exact ⟨hp c hc, (List.map_inj_left.mp h c hc).symm⟩

theorem barIdentity_applyUpdate {us : List String} {p : Row} (r : Row)
    (hus : ∀ c ∈ us, c ∉ barIdColumns) :
    barIdentity (applyUpdate us p r) = barIdentity r :=
  List.map_inj_left.mpr
    (fun c hc => sqlValue_applyUpdate_not_mem us p r c (fun hm => hus c hm hc))

theorem execUpsert_barIdentity (u : UpsertSql) (tbl : List Row)
    (hcc : u.conflictColumns = barIdColumns)
    (hus : ∀ c ∈ u.updateColumns, c ∉ barIdColumns)
    (hp : fullyKeyed u.payload) :
    (execUpsert u tbl).map barIdentity =
      if barIdentity u.payload ∈ tbl.map barIdentity then tbl.map barIdentity
      else tbl.map barIdentity ++ [barIdentity u.payload] := by
  induction tbl with
  | nil => simp [execUpsert]
  | cons r rest ih =>
    by_cases h : conflictsWith u.conflictColumns u.payload r = true
    · have hid : barIdentity r = barIdentity u.payload := by
        rw [hcc] at h
        exact (conflictsWith_id_iff hp).mp h
      have hmem : barIdentity u.payload ∈ (r :: rest).map barIdentity := by
        simp [hid]
      rw [if_pos hmem]
      by_cases hu : u.updateColumns = [] <;>
        simp [execUpsert, h, hu, barIdentity_applyUpdate r hus]
    · have hF : conflictsWith u.conflictColumns u.payload r = false :=
        Bool.eq_false_iff.mpr h
      have hne : barIdentity r ≠ barIdentity u.payload := fun he =>
        h (by rw [hcc]; exact (conflictsWith_id_iff hp).mpr he)
      simp only [execUpsert, hF, Bool.false_eq_true, if_false, List.map_cons, ih]
      by_cases hmem : barIdentity u.payload ∈ rest.map barIdentity
      · rw [if_pos hmem, if_pos (by simp [hmem])]
      · have hnc : barIdentity u.payload ∉
            barIdentity r :: List.map barIdentity rest := by
          simp only [List.mem_cons]
          rintro (he | he)
          · exact hne he.symm
          · exact hmem he
        rw [if_neg hmem, if_neg hnc]
        simp

/-- Insert an identity into the running identity list unless present. -/
def insertId (ids : List (List Value)) (i : List Value) : List (List Value) :=
  if i ∈ ids then ids else ids ++ [i]

/-- The identity list after a sequence of bar writes. -/
def idsAfter (ids : List (List Value)) (ps : List Row) : List (List Value) :=
  ps.foldl (fun acc p => insertId acc (barIdentity p)) ids

theorem mem_insertId (ids : List (List Value)) (i x : List Value) :
    x ∈ insertId ids i ↔ x ∈ ids ∨ x = i := by
  unfold insertId
  split
  · rename_i hmem
    constructor
    · exact Or.inl
    · rintro (hx | rfl)
      · exact hx
      · exact hmem
  · simp

theorem nodup_insertId (ids : List (List Value)) (i : List Value)
    (h : ids.Nodup) : (insertId ids i).Nodup := by
  unfold insertId
  split
  · exact h
  · rename_i hni
    simp [List.nodup_append, h, hni]

theorem nodup_idsAfter (ps : List Row) (ids : List (List Value))
    (h : ids.Nodup) : (idsAfter ids ps).Nodup := by
  induction ps generalizing ids with
  | nil => exact h
  | cons p ps ih => exact ih _ (nodup_insertId _ _ h)

theorem mem_idsAfter (ps : List Row) (ids : List (List Value)) (x : List Value) :
    x ∈ idsAfter ids ps ↔ x ∈ ids ∨ x ∈ ps.map barIdentity := by
  induction ps generalizing ids with
  | nil => simp [idsAfter]
  | cons p ps ih =>
    show x ∈ idsAfter (insertId ids (barIdentity p)) ps ↔ _
    rw [ih, mem_insertId]
    simp
    tauto

theorem upsertMany_ids (t : String) (ht : t ∈ allowedBarTables) (ps : List Row)
    (hps : ∀ p ∈ ps, fullyKeyed p) (db : DB) :
    ∃ db', upsertMany t ps db = Except.ok db' ∧
      (db'.getTable t).map barIdentity =
        idsAfter ((db.getTable t).map barIdentity) ps := by
  induction ps generalizing db with
  | nil => exact ⟨db, rfl, rfl⟩
  | cons p ps ih =>
    have hp := hps p (List.mem_cons_self p ps)
    have hne := fullyKeyed_ne_nil hp
    have heq := upsert_bar_eq_ok t p db ht hne
    obtain ⟨db', h1, h2⟩ := ih (fun q hq => hps q (List.mem_cons_of_mem p hq))
      (db.setTable t (execUpsert
        { conflictColumns := barIdColumns,
          updateColumns := Row.cols p |>.filter
            (fun c => decide (c ∉ barIdColumns ∧ c ∉ (["bid"] : List String))),
          payload := p } (db.getTable t)))
    refine ⟨db', ?_, ?_⟩
    · show (upsert_bar t p db >>= fun d => upsertMany t ps d) = Except.ok db'
      rw [heq]
      exact h1
    · rw [h2]
      have hstep : (DB.getTable (db.setTable t (execUpsert
          { conflictColumns := barIdColumns,
            updateColumns := Row.cols p |>.filter
              (fun c => decide (c ∉ barIdColumns ∧ c ∉ (["bid"] : List String))),
            payload := p } (db.getTable t))) t).map barIdentity =
          insertId ((db.getTable t).map barIdentity) (barIdentity p) := by
        rw [getTable_setTable _ _ _ ht,
          execUpsert_barIdentity _ _ rfl
            (fun c hc => by
              have := (List.mem_filter.mp hc).2
              simp at this
              exact this.1) hp]
        rfl
      rw [hstep]
      rfl

theorem length_eq_of_nodup_mem_iff {α : Type _} [DecidableEq α] {l l' : List α}
    (h : l.Nodup) (h' : l'.Nodup) (hm : ∀ x, x ∈ l ↔ x ∈ l') :
    l.length = l'.length := by
  rw [← List.toFinset_card_of_nodup h, ← List.toFinset_card_of_nodup h']
  congr 1
  ext x
  simp [hm x]

/-- C5: a sequence of bar writes whose payloads carry full non-NULL
composite identities leaves exactly one row per distinct identity in the
table: a repeated identity always merges and never creates a second row. -/
theorem c5_identity_uniqueness (t : String) (ht : t ∈ allowedBarTables)
    (ps : List Row) (hps : ∀ p ∈ ps, fullyKeyed p) :
    ∃ db', upsertMany t ps emptyDB = Except.ok db' ∧
      (db'.getTable t).length = ((ps.map barIdentity).dedup).length := by
  obtain ⟨db', h1, h2⟩ := upsertMany_ids t ht ps hps emptyDB
  have hempty : (emptyDB.getTable t).map barIdentity = ([] : List (List Value)) := by
    simp only [allowedBarTables, List.mem_cons, List.not_mem_nil, or_false] at ht
    rcases ht with h | h | h <;> subst h <;> rfl
  have hlen : ((db'.getTable t).map barIdentity).length = (db'.getTable t).length :=
    List.length_map _ _
  refine ⟨db', h1, ?_⟩
  rw [← hlen, h2, hempty]
  refine length_eq_of_nodup_mem_iff (nodup_idsAfter _ _ List.nodup_nil)
    (List.nodup_dedup _) ?_
  intro x
  rw [mem_idsAfter]
  simp [List.mem_dedup]

/-- Three bar writes spanning two distinct composite identities. -/
def twoIdentityWrites : List Row :=
  [[("source", Value.str "dex"), ("exchange", Value.str "e"),
    ("chain", Value.str ""), ("symbol", Value.str "S"),
    ("close_ts", Value.int 60), ("close", Value.int 1)],
   [("source", Value.str "dex"), ("exchange", Value.str "e"),
    ("chain", Value.str ""), ("symbol", Value.str "S"),
    ("close_ts", Value.int 120), ("close", Value.int 2)],
   [("source", Value.str "dex"), ("exchange", Value.str "e"),
    ("chain", Value.str ""), ("symbol", Value.str "S"),
    ("close_ts", Value.int 60), ("close", Value.int 3)]]

/-- C5 witness: the three writes of `twoIdentityWrites` (two distinct
identities) leave a table of exactly two rows. -/
theorem c5_identity_uniqueness_witness :
    (((twoIdentityWrites.map barIdentity).dedup).length = 2) ∧
    ∃ db', upsertMany "bars_1m" twoIdentityWrites emptyDB = Except.ok db' ∧
      (db'.getTable "bars_1m").length =
        ((twoIdentityWrites.map barIdentity).dedup).length :=
  ⟨by decide, c5_identity_uniqueness "bars_1m" (by decide) twoIdentityWrites
    (by decide)⟩

theorem tagPayload_ne_nil (tok : Row) (e s : Value) (bar : Row) :
    tagPayload tok e s bar ≠ ([] : Row) := by
  cases bar with
  | nil => simp [tagPayload, dictMerge, Row.cols]
  | cons p rest => simp [tagPayload, dictMerge]

theorem upsertMany_append (t : String) (a b : List Row) (db d1 : DB)
    (h : upsertMany t a db = Except.ok d1) :
    upsertMany t (a ++ b) db = upsertMany t b d1 := by
  unfold upsertMany at *
  rw [List.foldlM_append, h]
  rfl

theorem ingestBars_ok (tok : Row) (exv syv : Value)
    (hex : Row.get tok "exchange" = some exv)
    (hsy : Row.get tok "symbol" = some syv)
    (bars : List Row) (db : DB) (n : Nat) :
    ∃ db', upsertMany "bars_1m" (bars.map (tagPayload tok exv syv)) db
        = Except.ok db' ∧
      ingestBars tok bars db n = Except.ok (db', n + bars.length) := by
  induction bars generalizing db n with
  | nil => exact ⟨db, rfl, rfl⟩
  | cons bar more ih =>
    have hup := upsert_bar_eq_ok "bars_1m" (tagPayload tok exv syv bar) db
      (by decide) (tagPayload_ne_nil tok exv syv bar)
    obtain ⟨db', h1, h2⟩ := ih (db.setTable "bars_1m" (execUpsert
      { conflictColumns := barIdColumns,
        updateColumns := Row.cols (tagPayload tok exv syv bar) |>.filter
          (fun c => decide (c ∉ barIdColumns ∧ c ∉ (["bid"] : List String))),
        payload := tagPayload tok exv syv bar } (db.getTable "bars_1m"))) (n + 1)
    refine ⟨db', ?_, ?_⟩
    · show (upsert_bar "bars_1m" (tagPayload tok exv syv bar) db >>=
        fun d => upsertMany "bars_1m" (more.map (tagPayload tok exv syv)) d)
        = Except.ok db'
      rw [hup]
      exact h1
    · have harith : n + 1 + more.length = n + (more.length + 1) := by omega
      simp only [ingestBars, getItem, hex, hsy, Bind.bind, Except.bind]
      rw [hup]
      simp only []
      rw [h2]
      simp [List.length_cons, harith]

theorem syncGo_ok (adapters : List (String × Adapter)) (since : Option Int)
    (toks : List Row) (db : DB) (n : Nat)
    (hk : ∀ tok ∈ toks, (Row.get tok "exchange").isSome = true ∧
      (Row.get tok "symbol").isSome = true) :
    ∃ db', upsertMany "bars_1m" (toks.flatMap (marketPayloads adapters since)) db
        = Except.ok db' ∧
      syncGo adapters since toks db n = Except.ok (db',
        n + (toks.map (fun tok => (marketBars adapters since tok).length)).sum) := by
  induction toks generalizing db n with
  | nil => exact ⟨db, rfl, by simp [syncGo]⟩
  | cons tok rest ih =>
    obtain ⟨hex', hsy'⟩ := hk tok (List.mem_cons_self tok rest)
    obtain ⟨exv, hex⟩ := Option.isSome_iff_exists.mp hex'
    obtain ⟨syv, hsy⟩ := Option.isSome_iff_exists.mp hsy'
    have hkr := fun q hq => hk q (List.mem_cons_of_mem tok hq)
    have hsql : sqlValue tok "exchange" = exv := by simp [sqlValue, hex]
    have hsqlsym : sqlValue tok "symbol" = syv := by simp [sqlValue, hsy]
    have hmf : marketFetch adapters since tok = (adapterLookup adapters exv).map
        (fun f => f (dictGetD tok "chain" (Value.str ""))
          (dictGetD tok "token_address" (Value.str ""))
          (dictGetD tok "pool_address" Value.null) since) := by
      simp [marketFetch, hex]
    cases hA : adapterLookup adapters exv with
    | none =>
      have hmb : marketBars adapters since tok = [] := by
        simp [marketBars, hmf, hA]
      have hmp : marketPayloads adapters since tok = [] := by
        simp [marketPayloads, hmb]
      obtain ⟨db', h1, h2⟩ := ih db n hkr
      refine ⟨db', ?_, ?_⟩
      · simpa [List.flatMap_cons, hmp] using h1
      · simp only [syncGo, getItem, hex, Bind.bind, Except.bind, hA]
        rw [h2]
        simp [hmb]
    | some f =>
      cases hF : f (dictGetD tok "chain" (Value.str ""))
          (dictGetD tok "token_address" (Value.str ""))
          (dictGetD tok "pool_address" Value.null) since with
      | error e =>
        have hmb : marketBars adapters since tok = [] := by
          simp [marketBars, hmf, hA, hF]
        have hmp : marketPayloads adapters since tok = [] := by
          simp [marketPayloads, hmb]
        obtain ⟨db', h1, h2⟩ := ih db n hkr
        refine ⟨db', ?_, ?_⟩
        · simpa [List.flatMap_cons, hmp] using h1
        · simp only [syncGo, getItem, hex, hsy, Bind.bind, Except.bind, hA, hF]
          rw [h2]
          simp [hmb]
      | ok bars =>
        have hmb : marketBars adapters since tok = bars := by
          simp [marketBars, hmf, hA, hF]
        have hmp : marketPayloads adapters since tok =
            bars.map (tagPayload tok exv syv) := by
          simp [marketPayloads, hmb, hsql, hsqlsym]
        obtain ⟨d1, hu1, hi1⟩ := ingestBars_ok tok exv syv hex hsy bars db n
        obtain ⟨db', h1, h2⟩ := ih d1 (n + bars.length) hkr
        refine ⟨db', ?_, ?_⟩
        · rw [List.flatMap_cons, hmp, upsertMany_append _ _ _ _ _ hu1]
          exact h1
        · have harith : n + bars.length +
              (rest.map (fun tok => (marketBars adapters since tok).length)).sum =
              n + (bars.length +
                (rest.map (fun tok => (marketBars adapters since tok).length)).sum) := by
            omega
          simp only [syncGo, getItem, hex, Bind.bind, Except.bind, hA, hF]
          rw [hi1]
          simp only []
          rw [h2]
          simp [hmb, harith]

/-- C6: one ingestion cycle over enabled markets whose rows carry
`exchange` and `symbol` keys never raises, even when some market's
adapter is unregistered or its fetch raises: the failing markets are
skipped, the bars of every other market are upserted into `bars_1m`, and
the cycle returns the total bar count across all markets. -/
theorem c6_per_market_isolation (adapters : List (String × Adapter))
    (since : Option Int) (db : DB)
    (hk : ∀ tok ∈ list_tokens (some true) db,
      (Row.get tok "exchange").isSome = true ∧
      (Row.get tok "symbol").isSome = true)
    (hfail : ∃ tok ∈ list_tokens (some true) db,
      marketFetch adapters since tok = none ∨
      ∃ e, marketFetch adapters since tok = some (Except.error e)) :
    ∃ db', upsertMany "bars_1m"
        ((list_tokens (some true) db).flatMap (marketPayloads adapters since)) db
        = Except.ok db' ∧
      sync_registered_tokens adapters since db = Except.ok (db',
        ((list_tokens (some true) db).map
          (fun tok => (marketBars adapters since tok).length)).sum) := by
  obtain ⟨db', h1, h2⟩ := syncGo_ok adapters since (list_tokens (some true) db) db 0 hk
  refine ⟨db', h1, ?_⟩
  rw [sync_registered_tokens, h2]
  simp

/-- Three enabled tracked markets: `ex1` yields two bars, `ex2`'s fetch
raises, `ex3` has no registered adapter. -/
def threeMarketDb : DB :=
  { emptyDB with
    token_registry :=
      [[("id", Value.str "t1"), ("symbol", Value.str "AAA"),
        ("exchange", Value.str "ex1"), ("enabled", Value.int 1)],
       [("id", Value.str "t2"), ("symbol", Value.str "BBB"),
        ("exchange", Value.str "ex2"), ("enabled", Value.int 1)],
       [("id", Value.str "t3"), ("symbol", Value.str "CCC"),
        ("exchange", Value.str "ex3"), ("enabled", Value.int 1)]] }

/-- The adapter registry for `threeMarketDb`: `ex1` returns two bars,
`ex2` raises, `ex3` is unregistered. -/
def threeMarketAdapters : List (String × Adapter) :=
  [("ex1", fun _ _ _ _ => Except.ok
      [[("close_ts", Value.int 60), ("close", Value.int 1)],
       [("close_ts", Value.int 120), ("close", Value.int 2)]]),
   ("ex2", fun _ _ _ _ => Except.error "transport error")]

/-- C6 witness: the three-market cycle returns the combined bar count of
the healthy markets (2 + 0 + 0) without raising. -/
theorem c6_per_market_isolation_witness :
    (((list_tokens (some true) threeMarketDb).map
      (fun tok => (marketBars threeMarketAdapters none tok).length)).sum = 2) ∧
    ∃ db', upsertMany "bars_1m"
        ((list_tokens (some true) threeMarketDb).flatMap
          (marketPayloads threeMarketAdapters none)) threeMarketDb
        = Except.ok db' ∧
      sync_registered_tokens threeMarketAdapters none threeMarketDb
        = Except.ok (db',
        ((list_tokens (some true) threeMarketDb).map
          (fun tok => (marketBars threeMarketAdapters none tok).length)).sum) :=
  ⟨by decide, c6_per_market_isolation threeMarketAdapters none threeMarketDb
    (by decide)
    ⟨[("id", Value.str "t2"), ("symbol", Value.str "BBB"),
      ("exchange", Value.str "ex2"), ("enabled", Value.int 1)],
     by decide, Or.inr ⟨"transport error", by decide⟩⟩⟩

